import Mathlib

/-
  Verification development for the tayste artist-scouting pipeline.

  The repository ships the Next.js frontend (API client, scout-feed page,
  metrics documentation page). The backend pipeline (orchestrator, ingestion,
  discovery, taste-map builder, feature engine, scoring engine) is not part of
  the shipped sources; those components are modelled from the specification,
  each such definition carries a doc comment beginning with
  "Modelled from the spec:". Definitions taken from shipped frontend code name
  the file they embed.

  Numeric scores are modelled as exact rationals.
-/

namespace Tayste

/-- Modelled from the spec: a scored scout-feed candidate as produced by the
Scoring Engine (section 4.6); the backend scoring code is absent from the
shipped sources. Fields carry the fit, momentum and risk inputs together with
the fallback flags of the momentum and risk computations. -/
structure ScoredItem where
  artist_id : Nat
  fit_score : Rat
  momentum_score : Rat
  risk_score : Rat
  momentum_fallback : Bool
  risk_fallback : Bool
deriving DecidableEq

/-- Modelled from the spec: an item is tagged fallback_scoring when either the
momentum or the risk value is a fallback default. -/
def fallback_scoring (i : ScoredItem) : Bool :=
  i.momentum_fallback || i.risk_fallback

/-- Modelled from the spec: final_score = fit_score * momentum_score -
risk_score when momentum and risk are both available (not fallback); when
either is a fallback default, final_score = fit_score. -/
def final_score (i : ScoredItem) : Rat :=
  if fallback_scoring i then i.fit_score
  else i.fit_score * i.momentum_score - i.risk_score

/-- Modelled from the spec: a platform metrics snapshot (section 3), with
captured_at abstracted to a day number. -/
structure Snapshot where
  artist_id : Nat
  platform : String
  day : Nat
  followers : Nat
  views : Nat
  likes : Nat
  comments : Nat
deriving DecidableEq

/-- Modelled from the spec: the snapshots of an artist that fall inside the
trailing 30-day window ending at the given day. -/
def snapshotsInTrailing30 (snaps : List Snapshot) (today : Nat) : List Snapshot :=
  snaps.filter (fun s => s.day ≤ today && today - s.day ≤ 30)

/-- Modelled from the spec: the most recent snapshot captured on or before the
given day. -/
def latestAt (snaps : List Snapshot) (day : Nat) : Option Snapshot :=
  (snaps.filter (fun s => s.day ≤ day)).foldl
    (fun acc s =>
      match acc with
      | none => some s
      | some t => if t.day < s.day then some s else some t)
    none

/-- Modelled from the spec: follower growth over a window, (latest -
prior) / prior; division by zero or an absent prior value yields none. -/
def growthOver (snaps : List Snapshot) (today span : Nat) : Option Rat :=
  match latestAt snaps today, latestAt snaps (today - span) with
  | some l, some p =>
      if p.followers = 0 then none
      else some (((l.followers : Rat) - (p.followers : Rat)) / (p.followers : Rat))
  | _, _ => none

/-- Clamp a rational into the unit interval. -/
def clamp01 (q : Rat) : Rat := max 0 (min q 1)

/-- Modelled from the spec: the feature record of an artist (section 4.5). -/
structure ArtistFeatures where
  momentum_score : Rat
  fallback : Bool
  growth_7d : Option Rat
  growth_30d : Option Rat
deriving DecidableEq

/-- Modelled from the spec: the Feature Engine momentum computation (section
4.5). If no snapshot exists within the trailing 30 days, momentum_score
defaults to a neutral 1/2 and the record is flagged fallback = true; otherwise
momentum is a monotonic normalization of the growth rates into the unit
interval (the spec leaves the exact normalization formula open; a clamped
affine form is used here). -/
def computeFeatures (snaps : List Snapshot) (today : Nat) : ArtistFeatures :=
  if (snapshotsInTrailing30 snaps today).isEmpty then
    { momentum_score := 1/2, fallback := true, growth_7d := none, growth_30d := none }
  else
    let g7 := growthOver snaps today 7
    let g30 := growthOver snaps today 30
    { momentum_score := clamp01 ((g7.getD 0 + g30.getD 0 + 1) / 3)
      fallback := false
      growth_7d := g7
      growth_30d := g30 }

/-- Modelled from the spec: assembling a scored item from a fit score, the
feature record and the risk computation. -/
def scoreCandidate (aid : Nat) (fit : Rat) (f : ArtistFeatures)
    (risk : Rat) (riskFallback : Bool) : ScoredItem :=
  { artist_id := aid
    fit_score := fit
    momentum_score := f.momentum_score
    risk_score := risk
    momentum_fallback := f.fallback
    risk_fallback := riskFallback }

end Tayste

namespace Tayste

/-- Claim C1: when neither momentum nor risk is a fallback, final_score equals
fit_score * momentum_score - risk_score; and at fit = 0.92, momentum = 0.8,
risk = 0.1 the final score is exactly 0.636, hence within 1e-9 of 0.636. -/
theorem scoring_final_score_formula (i : ScoredItem)
    (hm : i.momentum_fallback = false) (hr : i.risk_fallback = false) :
    final_score i = i.fit_score * i.momentum_score - i.risk_score ∧
    final_score ⟨0, 92/100, 8/10, 1/10, false, false⟩ = 636/1000 ∧
    |final_score ⟨0, 92/100, 8/10, 1/10, false, false⟩ - 636/1000| ≤ 1/1000000000 := by
  refine ⟨?_, ?_, ?_⟩
  · simp [final_score, fallback_scoring, hm, hr]
  · norm_num [final_score, fallback_scoring]
  · norm_num [final_score, fallback_scoring]

/-- Witness for claim C1 at a concrete non-fallback item. -/
theorem scoring_final_score_formula_witness :
    final_score ⟨7, 92/100, 8/10, 1/10, false, false⟩ =
      (92/100 : Rat) * (8/10) - 1/10 :=
  ((scoring_final_score_formula ⟨7, 92/100, 8/10, 1/10, false, false⟩ rfl rfl).1)

/-- Claim C2: an artist with no snapshot in the trailing 30 days gets
momentum_score = 1/2 with fallback = true, and the scored item built from that
feature record has final_score equal to its fit_score exactly. -/
theorem momentum_fallback_neutral (snaps : List Snapshot) (today : Nat)
    (aid : Nat) (fit risk : Rat) (rf : Bool)
    (h : ∀ s ∈ snaps, ¬(s.day ≤ today ∧ today - s.day ≤ 30)) :
    (computeFeatures snaps today).momentum_score = 1/2 ∧
    (computeFeatures snaps today).fallback = true ∧
    final_score (scoreCandidate aid fit (computeFeatures snaps today) risk rf) = fit := by
  have hfil : snapshotsInTrailing30 snaps today = [] := by
    simp only [snapshotsInTrailing30, List.filter_eq_nil_iff]
    intro s hs
    have := h s hs
    simp only [Bool.and_eq_true, decide_eq_true_eq]
    intro hc
    exact this ⟨hc.1, hc.2⟩
  have hfeat : computeFeatures snaps today =
      { momentum_score := 1/2, fallback := true, growth_7d := none, growth_30d := none } := by
    simp [computeFeatures, hfil]
  refine ⟨by rw [hfeat], by rw [hfeat], ?_⟩
  rw [hfeat]
  simp [final_score, fallback_scoring, scoreCandidate]

/-- Witness for claim C2 at an empty snapshot history. -/
theorem momentum_fallback_neutral_witness :
    (computeFeatures [] 100).momentum_score = 1/2 ∧
    (computeFeatures [] 100).fallback = true ∧
    final_score (scoreCandidate 3 (42/100) (computeFeatures [] 100) (1/10) false) = 42/100 :=
  momentum_fallback_neutral [] 100 3 (42/100) (1/10) false (by simp)

/-- The value of the longest leading run of decimal digits of a character
list, none when the list does not start with a digit; embeds the digit
handling of the parseInt call in the scout-feed page. -/
def parseDigits (cs : List Char) : Option Nat :=
  let ds := cs.takeWhile Char.isDigit
  if ds.isEmpty then none
  else some (ds.foldl (fun acc c => acc * 10 + (c.toNat - 48)) 0)

/-- JavaScript parseInt with radix 10 as used by the scout-feed page:
leading spaces are skipped, an optional sign is read, then the longest digit
prefix; none models NaN. -/
def jsParseInt (s : String) : Option Int :=
  match s.toList.dropWhile (fun c => c = ' ') with
  | '-' :: rest => (parseDigits rest).map (fun n => -(n : Int))
  | '+' :: rest => (parseDigits rest).map (fun n => (n : Int))
  | cs => (parseDigits cs).map (fun n => (n : Int))

/-- The JavaScript truthiness fallback applied to a parse result, modelling
the expression parseInt(...) or-else 50: NaN and 0 are falsy and yield the
default 50. -/
def parseOrFifty (r : Option Int) : Int :=
  match r with
  | none => 50
  | some m => if m = 0 then 50 else m

/-- The limit actually requested by the scout-feed page for a given value of
the limit query parameter; embeds the expression
Math.max(1, Math.min(parseInt(resolvedSearch?.limit || "50", 10) || 50, 200))
from the ScoutFeedPage server component. A missing or empty parameter falls
back to the string "50"; a parse yielding NaN or 0 falls back to 50. -/
def requestedLimit (param : Option String) : Int :=
  let s := match param with
    | none => "50"
    | some v => if v = "" then "50" else v
  max 1 (min (parseOrFifty (jsParseInt s)) 200)

/-- The default limit of the API client function getScoutFeed, which requests
50 items when no limit is given. -/
def getScoutFeedLimit (limit : Option Int) : Int :=
  limit.getD 50

/-- Field names of the ScoutFeedItem interface exactly as declared in the
current API client module — the one staged in the dashboard layout file,
which is the module exporting the watchlist and alert API the dashboard
pages import, so it is the declaration the feed client type-checks
against. -/
def scoutFeedItemFields : List String :=
  ["artist_id", "artist_name", "image_url", "fit_score", "momentum_score",
   "risk_score", "final_score", "nearest_roster_artist", "growth_7d",
   "growth_30d", "genre_tags", "score_breakdown", "reasons"]

/-- Field names that the ScoutFeedClient component reads from each feed item
it renders. -/
def scoutFeedClientReadFields : List String :=
  ["artist_id", "artist_name", "final_score", "stage", "genre_tags",
   "fit_score", "momentum_score", "risk_score", "reasons", "growth_7d",
   "growth_30d", "nearest_roster_artist"]

/-- Modelled from the spec: the documented threshold rules behind the
reasons list of a scored item (section 4.6) — each rule is a human-readable
tag paired with its threshold test, with no hidden weights. The spec
documents the rule shape and example tags but leaves the exact cutoff values
open; concrete cutoffs are fixed here. A momentum or risk rule only fires on
a non-fallback value. -/
def reasonRules : List (String × (ScoredItem → Bool)) :=
  [("high momentum", fun i =>
      decide ((7 : Rat)/10 ≤ i.momentum_score) && !i.momentum_fallback),
   ("strong fit", fun i => decide ((8 : Rat)/10 ≤ i.fit_score)),
   ("risk: growth spike", fun i =>
      decide ((5 : Rat)/10 ≤ i.risk_score) && !i.risk_fallback)]

/-- Modelled from the spec: the reasons list of a scored item — the tags of
exactly the documented rules whose threshold test fires, in the fixed
documented order. -/
def reasonsFor (i : ScoredItem) : List String :=
  (reasonRules.filter (fun r => r.snd i)).map Prod.fst

end Tayste

namespace Tayste

/-- Claim C4: the ScoutFeedItem record declared by the current API client
carries a reasons field, and the reasons list of every scored item is
deterministic and threshold-driven — a tag appears exactly when one of the
documented threshold rules fires on the item, and the list is always drawn,
in order, from the documented rule tags alone. -/
theorem scout_feed_reasons_thresholds :
    "reasons" ∈ scoutFeedItemFields ∧
    (∀ (i : ScoredItem) (tag : String),
      tag ∈ reasonsFor i ↔ ∃ r ∈ reasonRules, r.fst = tag ∧ r.snd i = true) ∧
    (∀ i : ScoredItem, (reasonsFor i).Sublist (reasonRules.map Prod.fst)) := by
  refine ⟨by decide, ?_, ?_⟩
  · intro i tag
    constructor
    · intro h
      rcases List.mem_map.mp h with ⟨r, hr, hrt⟩
      rcases List.mem_filter.mp hr with ⟨hrm, hrp⟩
      exact ⟨r, hrm, hrt, hrp⟩
    · rintro ⟨r, hrm, hrt, hrp⟩
      exact List.mem_map.mpr ⟨r, List.mem_filter.mpr ⟨hrm, hrp⟩, hrt⟩
  · intro i
    exact List.Sublist.map Prod.fst (List.filter_sublist reasonRules)

/-- Witness for claim C4: a concrete high-momentum non-fallback item receives
the high momentum tag through the documented rule. -/
theorem scout_feed_reasons_thresholds_witness :
    "high momentum" ∈ reasonsFor ⟨1, 9/10, 8/10, 0, false, false⟩ :=
  (scout_feed_reasons_thresholds.2.1 ⟨1, 9/10, 8/10, 0, false, false⟩
      "high momentum").mpr
    ⟨("high momentum", fun i =>
        decide ((7 : Rat)/10 ≤ i.momentum_score) && !i.momentum_fallback),
     List.mem_cons_self _ _, rfl,
     by simp only [Bool.and_eq_true, Bool.not_false, decide_eq_true_eq]
        exact ⟨by norm_num, trivial⟩⟩

/-- Claim C10 counterexample: the limit query parameter value "0" is below 1
yet is not raised to 1; the page requests 50 items instead, because the
JavaScript truthiness fallback turns a parsed 0 into the default 50. -/
theorem limit_zero_counterexample :
    requestedLimit (some "0") = 50 ∧ requestedLimit (some "0") ≠ 1 := by
  decide

/-- Claim C10 as amended: the requested limit always lies in the interval
from 1 to 200; a missing parameter yields 50, a non-numeric parameter yields
50, a parameter parsing to 0 yields 50, a negative parse is raised to 1, a
parse above 200 is capped at 200, and the API client defaults to 50 when no
limit is given. -/
theorem limit_clamped_amended (param : Option String) :
    1 ≤ requestedLimit param ∧ requestedLimit param ≤ 200 ∧
    requestedLimit none = 50 ∧
    (∀ s, param = some s → jsParseInt s = none → requestedLimit param = 50) ∧
    (∀ s, param = some s → jsParseInt s = some 0 → requestedLimit param = 50) ∧
    (∀ s n, param = some s → jsParseInt s = some n → n < 0 → requestedLimit param = 1) ∧
    (∀ s n, param = some s → jsParseInt s = some n → 200 < n → requestedLimit param = 200) ∧
    getScoutFeedLimit none = 50 := by
  have hempty : jsParseInt "" = none := by decide
  have h50 : jsParseInt "50" = some 50 := by decide
  have hne : ∀ s n, jsParseInt s = some n → ¬s = "" := by
    intro s n hs hcon
    rw [hcon, hempty] at hs
    exact Option.noConfusion hs
  refine ⟨?_, ?_, ?_, ?_, ?_, ?_, ?_, rfl⟩
  · exact le_max_left 1 _
  · exact max_le (by norm_num) (min_le_right _ 200)
  · simp only [requestedLimit, h50]
    decide
  · intro s hp hs
    subst hp
    by_cases he : s = ""
    · simp only [requestedLimit, he, if_pos rfl, h50]
      decide
    · simp only [requestedLimit, if_neg he, hs]
      decide
  · intro s hp hs
    subst hp
    have he := hne s 0 hs
    simp only [requestedLimit, if_neg he, hs]
    decide
  · intro s n hp hs hn
    subst hp
    have he := hne s n hs
    have hn0 : ¬n = 0 := by omega
    simp only [requestedLimit, if_neg he, hs, parseOrFifty, hn0, if_false]
    omega
  · intro s n hp hs hn
    subst hp
    have he := hne s n hs
    have hn0 : ¬n = 0 := by omega
    simp only [requestedLimit, if_neg he, hs, parseOrFifty, hn0, if_false]
    omega

/-- Witness for the amended claim C10: the negative parameter value "-7" is
raised to a requested limit of 1. -/
theorem limit_clamped_amended_witness :
    requestedLimit (some "-7") = 1 :=
  ((limit_clamped_amended (some "-7")).2.2.2.2.2.1) "-7" (-7) rfl (by decide) (by decide)

end Tayste

namespace Tayste

/-- Modelled from the spec: a ranked feed item of one scoring batch as seen by
the ranking step of the Scoring Engine (section 4.6); only the keys the
ranking consults are carried. -/
structure FeedItem where
  artist_id : Nat
  fit_score : Rat
  final_score : Rat
deriving DecidableEq

/-- Modelled from the spec: the batch ranking order — final_score descending,
ties broken by fit_score descending, then by artist id ascending. -/
def rankLE (a b : FeedItem) : Prop :=
  b.final_score < a.final_score ∨
    (a.final_score = b.final_score ∧
      (b.fit_score < a.fit_score ∨
        (a.fit_score = b.fit_score ∧ a.artist_id ≤ b.artist_id)))

instance : DecidableRel rankLE := fun a b =>
  decidable_of_iff
    (b.final_score < a.final_score ∨
      (a.final_score = b.final_score ∧
        (b.fit_score < a.fit_score ∨
          (a.fit_score = b.fit_score ∧ a.artist_id ≤ b.artist_id))))
    Iff.rfl

instance : IsTotal FeedItem rankLE := by
  constructor
  intro a b
  rcases lt_trichotomy a.final_score b.final_score with hf | hf | hf
  · exact Or.inr (Or.inl hf)
  · rcases lt_trichotomy a.fit_score b.fit_score with hg | hg | hg
    · exact Or.inr (Or.inr ⟨hf.symm, Or.inl hg⟩)
    · rcases Nat.le_total a.artist_id b.artist_id with hi | hi
      · exact Or.inl (Or.inr ⟨hf, Or.inr ⟨hg, hi⟩⟩)
      · exact Or.inr (Or.inr ⟨hf.symm, Or.inr ⟨hg.symm, hi⟩⟩)
    · exact Or.inl (Or.inr ⟨hf, Or.inl hg⟩)
  · exact Or.inl (Or.inl hf)

instance : IsTrans FeedItem rankLE := by
  constructor
  intro a b c hab hbc
  rcases hab with hab | ⟨habf, hab⟩
  · rcases hbc with hbc | ⟨hbcf, hbc⟩
    · exact Or.inl (hbc.trans hab)
    · exact Or.inl (hbcf ▸ hab)
  · rcases hbc with hbc | ⟨hbcf, hbc⟩
    · exact Or.inl (habf ▸ hbc)
    · refine Or.inr ⟨habf.trans hbcf, ?_⟩
      rcases hab with hab | ⟨habg, hab⟩
      · rcases hbc with hbc | ⟨hbcg, hbc⟩
        · exact Or.inl (hbc.trans hab)
        · exact Or.inl (hbcg ▸ hab)
      · rcases hbc with hbc | ⟨hbcg, hbc⟩
        · exact Or.inl (habg ▸ hbc)
        · exact Or.inr ⟨habg.trans hbcg, hab.trans hbc⟩

/-- Modelled from the spec: ranking a scoring batch sorts its items by the
rankLE order. -/
def rankBatch (items : List FeedItem) : List FeedItem :=
  items.insertionSort rankLE

/-- Claim C3: the batch ranking is a sort of the batch under the total order
rankLE (final_score descending, then fit_score descending, then artist id
ascending); distinct artist ids make the order strict in exactly one
direction, so the ranking is fully deterministic; and two items tied at a
final score of 0.70 with fits 0.8 and 0.75 rank the 0.8-fit item first. -/
theorem batch_ranking_deterministic (l : List FeedItem) :
    (rankBatch l).Sorted rankLE ∧
    (rankBatch l).Perm l ∧
    (∀ a b : FeedItem, a.artist_id ≠ b.artist_id → (rankLE a b ↔ ¬rankLE b a)) ∧
    rankBatch [⟨2, 75/100, 7/10⟩, ⟨1, 8/10, 7/10⟩] =
      [⟨1, 8/10, 7/10⟩, ⟨2, 75/100, 7/10⟩] := by
  refine ⟨List.sorted_insertionSort rankLE l, List.perm_insertionSort rankLE l, ?_, ?_⟩
  · intro a b hid
    constructor
    · intro hab hba
      rcases hab with hab | ⟨habf, hab⟩
      · rcases hba with hba | ⟨hbaf, hba⟩
        · exact absurd (hab.trans hba) (lt_irrefl _)
        · exact absurd hab (hbaf ▸ lt_irrefl _)
      · rcases hba with hba | ⟨hbaf, hba⟩
        · exact absurd hba (habf ▸ lt_irrefl _)
        · rcases hab with hab | ⟨habg, hab⟩
          · rcases hba with hba | ⟨hbag, hba⟩
            · exact absurd (hab.trans hba) (lt_irrefl _)
            · exact absurd hab (hbag ▸ lt_irrefl _)
          · rcases hba with hba | ⟨hbag, hba⟩
            · exact absurd hba (habg ▸ lt_irrefl _)
            · exact hid (Nat.le_antisymm hab hba)
    · intro hnba
      rcases IsTotal.total (r := rankLE) a b with h | h
      · exact h
      · exact absurd h hnba
  · show List.insertionSort rankLE _ = _
    simp only [List.insertionSort, List.orderedInsert]
    norm_num [rankLE]

/-- Witness for claim C3: the tie-broken concrete ranking, and strict
one-direction comparability of two concrete items with distinct ids. -/
theorem batch_ranking_deterministic_witness :
    rankBatch [⟨2, 75/100, 7/10⟩, ⟨1, 8/10, 7/10⟩] =
      [⟨1, 8/10, 7/10⟩, ⟨2, 75/100, 7/10⟩] ∧
    (rankLE ⟨1, 8/10, 7/10⟩ ⟨2, 75/100, 7/10⟩ ↔
      ¬rankLE ⟨2, 75/100, 7/10⟩ ⟨1, 8/10, 7/10⟩) :=
  ⟨(batch_ranking_deterministic []).2.2.2,
   (batch_ranking_deterministic []).2.2.1 ⟨1, 8/10, 7/10⟩ ⟨2, 75/100, 7/10⟩ (by decide)⟩

end Tayste

namespace Tayste

/-- Modelled from the spec: the pipeline run states of the Orchestrator
(section 4.1). -/
inductive RunState where
  | idle
  | queued
  | running
  | complete
  | failed
  | canceled
deriving DecidableEq

/-- Modelled from the spec: a run is in flight when it is queued or
running. -/
def RunState.inFlight : RunState → Bool
  | .queued => true
  | .running => true
  | _ => false

/-- Modelled from the spec: one PipelineRun row, owned by the
Orchestrator. -/
structure PipelineRun where
  label_id : Nat
  state : RunState
deriving DecidableEq

/-- Modelled from the spec: the table of pipeline runs across labels. -/
abbrev RunTable := List PipelineRun

/-- Modelled from the spec: the number of in-flight runs of one label. -/
def inFlightCount (t : RunTable) (l : Nat) : Nat :=
  t.countP (fun r => decide (r.label_id = l) && r.state.inFlight)

/-- Modelled from the spec: the error returned by enqueue on an in-flight
label. -/
inductive EnqueueError where
  | AlreadyInFlight
deriving DecidableEq

/-- Modelled from the spec: enqueue(label_id) fails with AlreadyInFlight when
the label has a queued or running run; otherwise it records a new queued
run. -/
def enqueue (t : RunTable) (l : Nat) : Except EnqueueError RunTable :=
  if t.any (fun r => decide (r.label_id = l) && r.state.inFlight) then
    .error .AlreadyInFlight
  else
    .ok (⟨l, .queued⟩ :: t)

/-- Modelled from the spec: the Orchestrator transitions — a successful
enqueue, starting a queued run, and finishing a running run in a
non-in-flight terminal state. -/
inductive OrchStep : RunTable → RunTable → Prop where
  | enq (t t2 : RunTable) (l : Nat) : enqueue t l = .ok t2 → OrchStep t t2
  | start (pre post : RunTable) (l : Nat) :
      OrchStep (pre ++ ⟨l, .queued⟩ :: post) (pre ++ ⟨l, .running⟩ :: post)
  | finish (pre post : RunTable) (l : Nat) (s : RunState) : s.inFlight = false →
      OrchStep (pre ++ ⟨l, .running⟩ :: post) (pre ++ ⟨l, s⟩ :: post)

/-- Modelled from the spec: the run tables reachable from the empty table by
Orchestrator transitions. -/
inductive OrchReachable : RunTable → Prop where
  | init : OrchReachable []
  | step (t t2 : RunTable) : OrchReachable t → OrchStep t t2 → OrchReachable t2

/-- In-flight count of a table headed by one run row. -/
theorem inFlightCount_cons (r : PipelineRun) (t : RunTable) (l : Nat) :
    inFlightCount (r :: t) l =
      (if r.label_id = l ∧ r.state.inFlight = true then 1 else 0) + inFlightCount t l := by
  simp only [inFlightCount, List.countP_cons]
  by_cases h1 : r.label_id = l
  · by_cases h2 : r.state.inFlight = true
    · simp [h1, h2]
      omega
    · simp [h1, h2]
  · simp [h1]

/-- In-flight count over a table split around one run row. -/
theorem inFlightCount_append (pre post : RunTable) (r : PipelineRun) (l : Nat) :
    inFlightCount (pre ++ r :: post) l =
      inFlightCount pre l +
        ((if r.label_id = l ∧ r.state.inFlight = true then 1 else 0) + inFlightCount post l) := by
  simp only [inFlightCount, List.countP_append, List.countP_cons]
  by_cases h1 : r.label_id = l
  · by_cases h2 : r.state.inFlight = true
    · simp [h1, h2]
      omega
    · simp [h1, h2]
  · simp [h1]

/-- A failed in-flight check means the label has no in-flight run. -/
theorem inFlightCount_eq_zero_of_not_any (t : RunTable) (l : Nat)
    (h : t.any (fun r => decide (r.label_id = l) && r.state.inFlight) = false) :
    inFlightCount t l = 0 := by
  rw [inFlightCount, List.countP_eq_zero]
  intro r hr
  have := (List.any_eq_false.mp h) r hr
  simpa using this

/-- The single-in-flight invariant is preserved by every Orchestrator
transition and holds at the empty table. -/
theorem orch_invariant (t : RunTable) (h : OrchReachable t) :
    ∀ l, inFlightCount t l ≤ 1 := by
  induction h with
  | init => intro l; simp [inFlightCount]
  | step t t2 _ hstep ih =>
      intro l
      cases hstep with
      | enq t3 t4 l2 henq =>
          rw [enqueue] at henq
          by_cases hany :
              t.any (fun r => decide (r.label_id = l2) && r.state.inFlight) = true
          · rw [if_pos hany] at henq
            exact absurd henq (by simp)
          · rw [if_neg hany] at henq
            have ht2 : (⟨l2, .queued⟩ : PipelineRun) :: t = t2 := by
              injection henq
            rw [← ht2, inFlightCount_cons]
            by_cases hl : l2 = l
            · subst hl
              have hany2 :
                  t.any (fun r => decide (r.label_id = l2) && r.state.inFlight) = false := by
                revert hany
                cases t.any (fun r => decide (r.label_id = l2) && r.state.inFlight) <;> simp
              have hz := inFlightCount_eq_zero_of_not_any t l2 hany2
              simp [RunState.inFlight, hz]
            · simp only [hl, false_and, if_false]
              simpa using ih l
      | start pre post l2 =>
          have h1 := ih l
          rw [inFlightCount_append] at h1 ⊢
          simpa using h1
      | finish pre post l2 s hs =>
          have h1 := ih l
          rw [inFlightCount_append] at h1 ⊢
          simp only [hs]
          simp at h1 ⊢
          split at h1 <;> omega

/-- Claim C5: in every reachable run table, each label has at most one
in-flight (queued or running) run; enqueue fails with AlreadyInFlight exactly
when the label has an in-flight run, and otherwise records a new queued run
for the label. -/
theorem enqueue_single_inflight (t : RunTable) (h : OrchReachable t) :
    (∀ l, inFlightCount t l ≤ 1) ∧
    (∀ l, (∃ r ∈ t, r.label_id = l ∧ r.state.inFlight = true) →
      enqueue t l = .error .AlreadyInFlight) ∧
    (∀ l, (∀ r ∈ t, r.label_id = l → r.state.inFlight = false) →
      enqueue t l = .ok (⟨l, .queued⟩ :: t)) := by
  refine ⟨orch_invariant t h, ?_, ?_⟩
  · intro l hex
    rw [enqueue, if_pos]
    rw [List.any_eq_true]
    obtain ⟨r, hr, h1, h2⟩ := hex
    exact ⟨r, hr, by simp [h1, h2]⟩
  · intro l hall
    rw [enqueue, if_neg]
    rw [List.any_eq_true]
    rintro ⟨r, hr, hrp⟩
    have h1 : r.label_id = l := by
      by_contra hc
      simp [hc] at hrp
    have := hall r hr h1
    simp [h1, this] at hrp

/-- Witness for claim C5 on a concrete reachable table with one completed and
one queued run. -/
theorem enqueue_single_inflight_witness :
    inFlightCount [⟨4, .queued⟩, ⟨3, .complete⟩] 3 ≤ 1 ∧
    enqueue [⟨4, .queued⟩, ⟨3, .complete⟩] 4 = .error .AlreadyInFlight ∧
    enqueue [⟨4, .queued⟩, ⟨3, .complete⟩] 3 =
      .ok (⟨3, .queued⟩ :: [⟨4, .queued⟩, ⟨3, .complete⟩]) := by
  have hre : OrchReachable [⟨4, .queued⟩, ⟨3, .complete⟩] := by
    have h0 : OrchReachable [] := OrchReachable.init
    have h1 : OrchReachable [⟨3, .queued⟩] :=
      OrchReachable.step _ _ h0 (OrchStep.enq _ _ 3 rfl)
    have h2 : OrchReachable [⟨3, .running⟩] :=
      OrchReachable.step _ _ h1 (OrchStep.start [] [] 3)
    have h3 : OrchReachable [⟨3, .complete⟩] :=
      OrchReachable.step _ _ h2 (OrchStep.finish [] [] 3 .complete rfl)
    exact OrchReachable.step _ _ h3 (OrchStep.enq _ _ 4 rfl)
  have h := enqueue_single_inflight _ hre
  exact ⟨h.1 3,
    h.2.1 4 ⟨⟨4, .queued⟩, by simp, rfl, rfl⟩,
    h.2.2 3 (by decide)⟩

end Tayste

namespace Tayste

/-- Modelled from the spec: a platform identity (platform, platform_id). -/
structure PlatformKey where
  platform : String
  platform_id : String
deriving DecidableEq

/-- Modelled from the spec: an Artist row with its platform accounts; only
the fields dedup consults are carried. -/
structure Artist where
  name : String
  is_candidate : Bool
  accounts : List PlatformKey
deriving DecidableEq

/-- Modelled from the spec: all platform identities present across the Artist
rows of the store. -/
def storeKeys (store : List Artist) : List PlatformKey :=
  (store.map Artist.accounts).flatten

/-- Modelled from the spec: the global uniqueness invariant — no platform
identity appears twice across Artist rows. -/
def UniqueKeys (store : List Artist) : Prop :=
  (storeKeys store).Nodup

/-- Modelled from the spec: whether some Artist row already owns the platform
identity. -/
def hasKey (store : List Artist) (k : PlatformKey) : Bool :=
  store.any (fun a => decide (k ∈ a.accounts))

/-- Modelled from the spec: a candidate stub produced by a discovery
strategy. -/
structure CandidateStub where
  name : String
  key : PlatformKey
deriving DecidableEq

/-- Modelled from the spec: normalized name tokens — lowercase, split on
spaces, empty tokens dropped, duplicates removed. -/
def normTokens (s : String) : List String :=
  (((s.toLower).splitOn " ").filter (fun t => decide (¬t = ""))).dedup

/-- Modelled from the spec: token similarity of two names, the Jaccard ratio
of their normalized token sets. -/
def tokenSim (a b : String) : Rat :=
  let ta := normTokens a
  let tb := normTokens b
  let inter := (ta.filter (fun t => decide (t ∈ tb))).length
  let uni := (ta ++ tb.filter (fun t => decide (¬t ∈ ta))).length
  if uni = 0 then 0 else (inter : Rat) / (uni : Rat)

/-- Modelled from the spec: whether a stub name clears the 0.9 token
similarity threshold against an Artist row name. -/
def nameMatches (nm : String) (a : Artist) : Bool :=
  decide ((9 : Rat)/10 ≤ tokenSim nm a.name)

/-- Modelled from the spec: merging a new platform account into the first
Artist row whose name clears the similarity threshold. -/
def addAccountFirstSimilar (k : PlatformKey) (nm : String) : List Artist → List Artist
  | [] => []
  | a :: rest =>
      if nameMatches nm a then { a with accounts := k :: a.accounts } :: rest
      else a :: addAccountFirstSimilar k nm rest

/-- Modelled from the spec: the discovery dedup policy (section 4.3). A stub
whose platform identity already exists is never recreated; otherwise it is
merged into a name-similar Artist row, or a new candidate Artist row is
created. -/
def ingestStub (store : List Artist) (c : CandidateStub) : List Artist :=
  if hasKey store c.key then store
  else if store.any (nameMatches c.name) then addAccountFirstSimilar c.key c.name store
  else store ++ [⟨c.name, true, [c.key]⟩]

/-- Modelled from the spec: ingesting the stubs of all strategies in
sequence. -/
def ingestStubs (store : List Artist) (cs : List CandidateStub) : List Artist :=
  cs.foldl ingestStub store

/-- The number of Artist rows owning a given platform identity. -/
def holders (store : List Artist) (k : PlatformKey) : Nat :=
  store.countP (fun a => decide (k ∈ a.accounts))

/-- Membership in the flattened key list of a store. -/
theorem mem_storeKeys (store : List Artist) (k : PlatformKey) :
    k ∈ storeKeys store ↔ ∃ a ∈ store, k ∈ a.accounts := by
  simp [storeKeys, List.mem_flatten]

/-- The key lookup agrees with key-list membership. -/
theorem hasKey_eq_true_iff (store : List Artist) (k : PlatformKey) :
    hasKey store k = true ↔ k ∈ storeKeys store := by
  rw [mem_storeKeys]
  simp [hasKey, List.any_eq_true]

/-- Unfolding the key list of a nonempty store. -/
theorem storeKeys_cons (a : Artist) (rest : List Artist) :
    storeKeys (a :: rest) = a.accounts ++ storeKeys rest := rfl

/-- The key list of a store extended by one Artist row. -/
theorem storeKeys_append_single (store : List Artist) (a : Artist) :
    storeKeys (store ++ [a]) = storeKeys store ++ a.accounts := by
  simp [storeKeys]

/-- Merging an account into the first similar row adds exactly that key, up
to permutation, provided some row is similar. -/
theorem storeKeys_addAccountFirstSimilar (k : PlatformKey) (nm : String) :
    ∀ store : List Artist, store.any (nameMatches nm) = true →
      (storeKeys (addAccountFirstSimilar k nm store)).Perm (k :: storeKeys store) := by
  intro store
  induction store with
  | nil => intro h; simp at h
  | cons a rest ih =>
      intro h
      by_cases hm : nameMatches nm a = true
      · rw [addAccountFirstSimilar, if_pos hm]
        exact List.Perm.refl _
      · rw [addAccountFirstSimilar, if_neg hm]
        have hrest : rest.any (nameMatches nm) = true := by
          rcases List.any_eq_true.mp h with ⟨x, hx, hxm⟩
          rcases List.mem_cons.mp hx with hx2 | hx2
          · exact absurd (hx2 ▸ hxm) hm
          · exact List.any_eq_true.mpr ⟨x, hx2, hxm⟩
        have hperm := ih hrest
        rw [storeKeys_cons, storeKeys_cons]
        exact (List.Perm.append_left a.accounts hperm).trans List.perm_middle

/-- Ingesting one stub preserves global platform-identity uniqueness. -/
theorem uniqueKeys_ingestStub (store : List Artist) (c : CandidateStub)
    (h : UniqueKeys store) : UniqueKeys (ingestStub store c) := by
  rw [ingestStub]
  by_cases hk : hasKey store c.key = true
  · rw [if_pos hk]; exact h
  · rw [if_neg hk]
    have hmem : ¬c.key ∈ storeKeys store := by
      intro hc
      exact hk ((hasKey_eq_true_iff store c.key).mpr hc)
    by_cases hsim : store.any (nameMatches c.name) = true
    · rw [if_pos hsim]
      have hperm := storeKeys_addAccountFirstSimilar c.key c.name store hsim
      rw [UniqueKeys, hperm.nodup_iff]
      exact List.nodup_cons.mpr ⟨hmem, h⟩
    · rw [if_neg hsim]
      rw [UniqueKeys, storeKeys_append_single]
      rw [List.nodup_append]
      refine ⟨h, by simp, ?_⟩
      intro x hx hx2
      simp at hx2
      exact hmem (hx2 ▸ hx)

/-- Ingesting a stub whose platform identity is new makes that identity
present in the store. -/
theorem key_mem_ingestStub (store : List Artist) (c : CandidateStub)
    (h : ¬c.key ∈ storeKeys store) : c.key ∈ storeKeys (ingestStub store c) := by
  rw [ingestStub]
  have hk : ¬hasKey store c.key = true := fun hc =>
    h ((hasKey_eq_true_iff store c.key).mp hc)
  rw [if_neg hk]
  by_cases hsim : store.any (nameMatches c.name) = true
  · rw [if_pos hsim]
    have hperm := storeKeys_addAccountFirstSimilar c.key c.name store hsim
    rw [hperm.mem_iff]
    exact List.mem_cons_self _ _
  · rw [if_neg hsim]
    rw [storeKeys_append_single]
    simp

/-- No Artist row owns a key that is absent from the store. -/
theorem holders_eq_zero (store : List Artist) (k : PlatformKey)
    (h : ¬k ∈ storeKeys store) : holders store k = 0 := by
  rw [holders, List.countP_eq_zero]
  intro a ha
  simp only [decide_eq_true_eq]
  intro hc
  exact h ((mem_storeKeys store k).mpr ⟨a, ha, hc⟩)

/-- Under the uniqueness invariant, a present key is owned by exactly one
Artist row. -/
theorem holders_eq_one (k : PlatformKey) :
    ∀ store : List Artist, UniqueKeys store → k ∈ storeKeys store →
      holders store k = 1 := by
  intro store
  induction store with
  | nil => intro _ hm; simp [storeKeys] at hm
  | cons a rest ih =>
      intro hu hm
      rw [UniqueKeys, storeKeys_cons, List.nodup_append] at hu
      obtain ⟨hna, hnr, hdisj⟩ := hu
      rw [storeKeys_cons, List.mem_append] at hm
      rw [holders, List.countP_cons]
      rcases hm with hm | hm
      · have hz : holders rest k = 0 :=
          holders_eq_zero rest k (fun hc => hdisj hm hc)
        rw [holders] at hz
        simp [hz, hm]
      · have hz : ¬k ∈ a.accounts := fun hc => hdisj hc hm
        have h1 := ih hnr hm
        rw [holders] at h1
        simp [h1, hz]

/-- Claim C6: in every store reachable by discovery ingestion from a store
satisfying the uniqueness invariant, no two Artist rows share a
(platform, platform_id) pair; and a candidate discovered by two strategies
with the same platform identity, ingested into a store not yet holding it,
yields exactly one Artist row owning that identity. -/
theorem platform_identity_unique :
    (∀ (store : List Artist) (cs : List CandidateStub),
      UniqueKeys store → UniqueKeys (ingestStubs store cs)) ∧
    (∀ (store : List Artist) (c c2 : CandidateStub),
      UniqueKeys store → ¬c.key ∈ storeKeys store → c2.key = c.key →
        holders (ingestStubs store [c, c2]) c.key = 1) := by
  have hfold : ∀ (cs : List CandidateStub) (store : List Artist),
      UniqueKeys store → UniqueKeys (ingestStubs store cs) := by
    intro cs
    induction cs with
    | nil => intro store h; exact h
    | cons c rest ih =>
        intro store h
        exact ih (ingestStub store c) (uniqueKeys_ingestStub store c h)
  refine ⟨fun store cs h => hfold cs store h, ?_⟩
  intro store c c2 hu hnew hk2
  have hu1 : UniqueKeys (ingestStub store c) := uniqueKeys_ingestStub store c hu
  have hmem1 : c.key ∈ storeKeys (ingestStub store c) :=
    key_mem_ingestStub store c hnew
  have hstep2 : ingestStubs store [c, c2] = ingestStub store c := by
    show ingestStub (ingestStub store c) c2 = ingestStub store c
    rw [ingestStub, if_pos]
    rw [hk2]
    exact (hasKey_eq_true_iff _ _).mpr hmem1
  rw [hstep2]
  exact holders_eq_one c.key (ingestStub store c) hu1 hmem1

/-- Witness for claim C6: two strategies discover the same platform identity
for an empty store and exactly one Artist row results for it. -/
theorem platform_identity_unique_witness :
    holders
      (ingestStubs []
        [⟨"velvet collapse", ⟨"youtube", "UC1"⟩⟩,
         ⟨"velvet collapse band", ⟨"youtube", "UC1"⟩⟩])
      ⟨"youtube", "UC1"⟩ = 1 :=
  platform_identity_unique.2 []
    ⟨"velvet collapse", ⟨"youtube", "UC1"⟩⟩
    ⟨"velvet collapse band", ⟨"youtube", "UC1"⟩⟩
    (by simp [UniqueKeys, storeKeys]) (by simp [storeKeys]) rfl

end Tayste

namespace Tayste

/-- Modelled from the spec: whether two snapshots occupy the same
(artist, platform, calendar day) slot. -/
def sameSlot (a b : Snapshot) : Bool :=
  decide (a.artist_id = b.artist_id) && decide (a.platform = b.platform) &&
    decide (a.day = b.day)

/-- Modelled from the spec: snapshot ingestion (section 4.2) — writes are
deduplicated by (artist, platform, day); a snapshot whose slot is already
stored is not written. -/
def ingestSnapshot (store : List Snapshot) (s : Snapshot) : List Snapshot :=
  if store.any (fun t => sameSlot t s) then store else store ++ [s]

/-- Slot equality is transitive across a rewrite. -/
theorem sameSlot_trans (a b c : Snapshot)
    (h1 : sameSlot a b = true) (h2 : sameSlot b c = true) : sameSlot a c = true := by
  simp only [sameSlot, Bool.and_eq_true, decide_eq_true_eq] at h1 h2 ⊢
  exact ⟨⟨h1.1.1.trans h2.1.1, h1.1.2.trans h2.1.2⟩, h1.2.trans h2.2⟩

/-- Claim C7: ingesting a snapshot whose (artist, platform, day) slot already
has a stored snapshot leaves the store unchanged, so the row count is
unchanged; in particular re-ingesting any snapshot of an already ingested
slot is idempotent. -/
theorem snapshot_ingest_idempotent :
    (∀ (store : List Snapshot) (s t : Snapshot), t ∈ store → sameSlot t s = true →
      ingestSnapshot store s = store ∧
      (ingestSnapshot store s).length = store.length) ∧
    (∀ (store : List Snapshot) (s s2 : Snapshot), sameSlot s2 s = true →
      ingestSnapshot (ingestSnapshot store s2) s = ingestSnapshot store s2) := by
  have hbase : ∀ (store : List Snapshot) (s t : Snapshot),
      t ∈ store → sameSlot t s = true → ingestSnapshot store s = store := by
    intro store s t ht hk
    rw [ingestSnapshot, if_pos]
    exact List.any_eq_true.mpr ⟨t, ht, hk⟩
  refine ⟨fun store s t ht hk => ⟨hbase store s t ht hk, by rw [hbase store s t ht hk]⟩, ?_⟩
  intro store s s2 hk
  by_cases hin : store.any (fun t => sameSlot t s2) = true
  · rcases List.any_eq_true.mp hin with ⟨t, ht, htk⟩
    have hs1 : ingestSnapshot store s2 = store := by
      rw [ingestSnapshot, if_pos hin]
    rw [hs1]
    exact hbase store s t ht (sameSlot_trans t s2 s htk hk)
  · have hs1 : ingestSnapshot store s2 = store ++ [s2] := by
      rw [ingestSnapshot, if_neg hin]
    rw [hs1]
    exact hbase (store ++ [s2]) s s2 (by simp) hk

/-- Witness for claim C7 at a concrete store holding the slot being
re-ingested with different metric values. -/
theorem snapshot_ingest_idempotent_witness :
    ingestSnapshot [⟨1, "youtube", 10, 100, 5, 1, 0⟩] ⟨1, "youtube", 10, 120, 9, 2, 1⟩ =
      [⟨1, "youtube", 10, 100, 5, 1, 0⟩] ∧
    ingestSnapshot
      (ingestSnapshot [] ⟨1, "youtube", 10, 100, 5, 1, 0⟩) ⟨1, "youtube", 10, 120, 9, 2, 1⟩ =
      ingestSnapshot [] ⟨1, "youtube", 10, 100, 5, 1, 0⟩ :=
  ⟨(snapshot_ingest_idempotent.1 [⟨1, "youtube", 10, 100, 5, 1, 0⟩]
      ⟨1, "youtube", 10, 120, 9, 2, 1⟩ ⟨1, "youtube", 10, 100, 5, 1, 0⟩
      (by simp) (by decide)).1,
   snapshot_ingest_idempotent.2 [] ⟨1, "youtube", 10, 120, 9, 2, 1⟩
      ⟨1, "youtube", 10, 100, 5, 1, 0⟩ (by decide)⟩

end Tayste

namespace Tayste

/-- Modelled from the spec: a versioned taste map — clusters listed as their
member artist ids (section 3). -/
structure TasteMap where
  version : Nat
  clusters : List (List Nat)
deriving DecidableEq

/-- Modelled from the spec: an in-progress taste-map recomputation built off
to the side — clusters assembled so far and roster artists not yet
assigned. -/
structure TasteMapBuild where
  assigned : List (List Nat)
  pending : List Nat
deriving DecidableEq

/-- Modelled from the spec: the label's taste-map store — the visible version
and the optional off-to-the-side build. Readers only ever see the visible
field. -/
structure TasteMapStore where
  visible : TasteMap
  building : Option TasteMapBuild
deriving DecidableEq

/-- Modelled from the spec: a taste map covers the roster when every roster
artist is assigned to some cluster. -/
def coversRoster (tm : TasteMap) (roster : List Nat) : Prop :=
  ∀ a ∈ roster, ∃ c ∈ tm.clusters, a ∈ c

/-- Modelled from the spec: the observable transitions of a taste-map
recomputation (section 4.4) — start a build, assign a pending artist to a new
or an existing cluster of the build, abandon the build (stage failure keeps
the old version), or publish the finished build as the new visible version.
Publishing is only possible once no roster artist is pending. -/
inductive TMStep (roster : List Nat) : TasteMapStore → TasteMapStore → Prop where
  | startBuild (v : TasteMap) :
      TMStep roster ⟨v, none⟩ ⟨v, some ⟨[], roster⟩⟩
  | assignNew (v : TasteMap) (cls : List (List Nat)) (a : Nat) (rest : List Nat) :
      TMStep roster ⟨v, some ⟨cls, a :: rest⟩⟩ ⟨v, some ⟨[a] :: cls, rest⟩⟩
  | assignExisting (v : TasteMap) (pre post : List (List Nat)) (c : List Nat)
      (a : Nat) (rest : List Nat) :
      TMStep roster ⟨v, some ⟨pre ++ c :: post, a :: rest⟩⟩
        ⟨v, some ⟨pre ++ (a :: c) :: post, rest⟩⟩
  | abandon (v : TasteMap) (b : TasteMapBuild) :
      TMStep roster ⟨v, some b⟩ ⟨v, none⟩
  | publish (v : TasteMap) (cls : List (List Nat)) :
      TMStep roster ⟨v, some ⟨cls, []⟩⟩ ⟨⟨v.version + 1, cls⟩, none⟩

/-- Modelled from the spec: the taste-map stores reachable from an initial
store by recomputation transitions. -/
inductive TMReachable (roster : List Nat) (s0 : TasteMapStore) : TasteMapStore → Prop where
  | refl : TMReachable roster s0 s0
  | step (s s2 : TasteMapStore) : TMReachable roster s0 s →
      TMStep roster s s2 → TMReachable roster s0 s2

/-- The recomputation invariant: the visible map covers the roster and every
in-progress build accounts for every roster artist as pending or already
assigned. -/
def tmInvariant (roster : List Nat) (s : TasteMapStore) : Prop :=
  coversRoster s.visible roster ∧
  ∀ b, s.building = some b →
    ∀ a ∈ roster, a ∈ b.pending ∨ ∃ c ∈ b.assigned, a ∈ c

/-- One recomputation transition preserves the invariant. -/
theorem tmInvariant_step (roster : List Nat) (s s2 : TasteMapStore)
    (h : tmInvariant roster s) (hs : TMStep roster s s2) : tmInvariant roster s2 := by
  obtain ⟨hvis, hbuild⟩ := h
  cases hs with
  | startBuild v =>
      exact ⟨hvis, by rintro b hb a ha; injection hb with hb; rw [← hb]; exact Or.inl ha⟩
  | assignNew v cls a rest =>
      refine ⟨hvis, ?_⟩
      rintro b hb x hx
      injection hb with hb
      rw [← hb]
      rcases hbuild ⟨cls, a :: rest⟩ rfl x hx with hp | ⟨c, hc, hxc⟩
      · rcases List.mem_cons.mp hp with hp2 | hp2
        · exact Or.inr ⟨[a], by simp, by simp [hp2]⟩
        · exact Or.inl hp2
      · exact Or.inr ⟨c, List.mem_cons_of_mem _ hc, hxc⟩
  | assignExisting v pre post c a rest =>
      refine ⟨hvis, ?_⟩
      rintro b hb x hx
      injection hb with hb
      rw [← hb]
      rcases hbuild ⟨pre ++ c :: post, a :: rest⟩ rfl x hx with hp | ⟨c2, hc2, hxc⟩
      · rcases List.mem_cons.mp hp with hp2 | hp2
        · exact Or.inr ⟨a :: c, by simp, by simp [hp2]⟩
        · exact Or.inl hp2
      · rcases List.mem_append.mp hc2 with hc3 | hc3
        · exact Or.inr ⟨c2, List.mem_append_left _ hc3, hxc⟩
        · rcases List.mem_cons.mp hc3 with hc4 | hc4
          · exact Or.inr ⟨a :: c, by simp,
              by rw [hc4] at hxc; exact List.mem_cons_of_mem a hxc⟩
          · exact Or.inr ⟨c2, List.mem_append_right _ (List.mem_cons_of_mem _ hc4), hxc⟩
  | abandon v b =>
      exact ⟨hvis, by rintro b2 hb; exact Option.noConfusion hb⟩
  | publish v cls =>
      refine ⟨?_, by rintro b2 hb; exact Option.noConfusion hb⟩
      intro a ha
      rcases hbuild ⟨cls, []⟩ rfl a ha with hp | ⟨c, hc, hxc⟩
      · exact absurd hp (List.not_mem_nil a)
      · exact ⟨c, hc, hxc⟩

/-- Claim C8: starting from a store with no build in progress whose visible
taste map covers the full roster, every reachable store's visible taste map
still covers the full roster — readers only ever observe a complete old or a
complete new version, never a partial one. -/
theorem taste_map_swap_atomic (roster : List Nat) (s0 s : TasteMapStore)
    (h0 : coversRoster s0.visible roster) (hb : s0.building = none)
    (h : TMReachable roster s0 s) : coversRoster s.visible roster := by
  have hinv : tmInvariant roster s := by
    induction h with
    | refl => exact ⟨h0, by rw [hb]; rintro b hb2; exact Option.noConfusion hb2⟩
    | step s1 s2 _ hstep ih => exact tmInvariant_step roster s1 s2 ih hstep
  exact hinv.1

/-- Witness for claim C8 on a concrete recomputation that starts, assigns
both roster artists and publishes. -/
theorem taste_map_swap_atomic_witness :
    coversRoster
      (TasteMapStore.visible ⟨⟨1, [[2], [1]]⟩, none⟩) [1, 2] :=
  taste_map_swap_atomic [1, 2] ⟨⟨0, [[1, 2]]⟩, none⟩ ⟨⟨1, [[2], [1]]⟩, none⟩
    (by intro a ha; exact ⟨[1, 2], by simp, by simpa using ha⟩) rfl
    (TMReachable.step _ _
      (TMReachable.step _ _
        (TMReachable.step _ _
          (TMReachable.step _ _ TMReachable.refl
            (TMStep.startBuild ⟨0, [[1, 2]]⟩))
          (TMStep.assignNew ⟨0, [[1, 2]]⟩ [] 1 [2]))
        (TMStep.assignNew ⟨0, [[1, 2]]⟩ [[1]] 2 []))
      (TMStep.publish ⟨0, [[1, 2]]⟩ [[2], [1]]))

end Tayste

namespace Tayste

/-- Modelled from the spec: the related-artist edges leaving a node of the
platform graph, which may contain cycles. -/
def neighbors (edges : List (Nat × Nat)) (n : Nat) : List Nat :=
  (edges.filter (fun e => decide (e.fst = n))).map Prod.snd

/-- Modelled from the spec: the nodes of the next frontier — related artists
of the current frontier that the visited set has not seen, deduplicated and
truncated to the remaining candidate budget. -/
def freshNodes (edges : List (Nat × Nat)) (visited frontier : List Nat)
    (maxCand : Nat) : List Nat :=
  ((((frontier.map (neighbors edges)).flatten).filter
      (fun n => decide (¬n ∈ visited))).dedup).take (maxCand - visited.length)

/-- Modelled from the spec: graph-expansion discovery (section 4.3) as a
fuelled loop over frontiers. The traversal keeps an explicit visited set,
stops when the max depth is reached, the max candidate cap is filled or the
frontier is empty, and otherwise advances one frontier. The fuel argument
makes the number of executed rounds observable; the claim is that a bounded
fuel always suffices. -/
def graphExpand (edges : List (Nat × Nat)) (maxDepth maxCand : Nat) :
    Nat → List Nat → List Nat → Nat → List Nat
  | 0, visited, _, _ => visited
  | fuel + 1, visited, frontier, depth =>
      if maxDepth ≤ depth ∨ maxCand ≤ visited.length ∨ frontier = [] then visited
      else
        graphExpand edges maxDepth maxCand fuel
          (visited ++ freshNodes edges visited frontier maxCand)
          (freshNodes edges visited frontier maxCand) (depth + 1)

/-- The expansion never grows the visited set past the candidate cap. -/
theorem graphExpand_length (edges : List (Nat × Nat)) (maxD maxC : Nat) :
    ∀ (fuel : Nat) (v fr : List Nat) (d : Nat), v.length ≤ maxC →
      (graphExpand edges maxD maxC fuel v fr d).length ≤ maxC := by
  intro fuel
  induction fuel with
  | zero => intro v fr d hv; simpa [graphExpand] using hv
  | succ k ih =>
      intro v fr d hv
      simp only [graphExpand]
      by_cases hcond : maxD ≤ d ∨ maxC ≤ v.length ∨ fr = []
      · rw [if_pos hcond]; exact hv
      · rw [if_neg hcond]
        refine ih _ _ _ ?_
        have hlt : v.length < maxC := by
          rcases Nat.lt_or_ge v.length maxC with h | h
          · exact h
          · exact absurd (Or.inr (Or.inl h)) hcond
        have htake : (freshNodes edges v fr maxC).length ≤ maxC - v.length := by
          simp only [freshNodes, List.length_take]
          omega
        simp only [List.length_append]
        omega

/-- Once the fuel covers the remaining depth budget, adding more fuel does
not change the result: the loop has terminated. -/
theorem graphExpand_stable (edges : List (Nat × Nat)) (maxD maxC : Nat) :
    ∀ (f1 f2 d : Nat) (v fr : List Nat), maxD - d ≤ f1 → maxD - d ≤ f2 →
      graphExpand edges maxD maxC f1 v fr d = graphExpand edges maxD maxC f2 v fr d := by
  intro f1
  induction f1 with
  | zero =>
      intro f2 d v fr h1 h2
      have hd : maxD ≤ d := by omega
      cases f2 with
      | zero => rfl
      | succ g =>
          simp only [graphExpand]
          rw [if_pos (Or.inl hd)]
  | succ k ih =>
      intro f2 d v fr h1 h2
      cases f2 with
      | zero =>
          have hd : maxD ≤ d := by omega
          simp only [graphExpand]
          rw [if_pos (Or.inl hd)]
      | succ g =>
          simp only [graphExpand]
          by_cases hcond : maxD ≤ d ∨ maxC ≤ v.length ∨ fr = []
          · rw [if_pos hcond, if_pos hcond]
          · rw [if_neg hcond, if_neg hcond]
            have hd : d < maxD := by
              rcases Nat.lt_or_ge d maxD with h | h
              · exact h
              · exact absurd (Or.inl h) hcond
            exact ih g (d + 1) _ _ (by omega) (by omega)

/-- Claim C9: on every related-artist edge list — cyclic graphs included —
the graph-expansion traversal terminates: any fuel covering the max-depth
budget yields the same final visited set, and that set never exceeds the max
candidate cap when the seeds respect it. -/
theorem graph_expansion_terminates (edges : List (Nat × Nat))
    (maxD maxC f1 f2 d : Nat) (v fr : List Nat)
    (h1 : maxD - d ≤ f1) (h2 : maxD - d ≤ f2) :
    graphExpand edges maxD maxC f1 v fr d = graphExpand edges maxD maxC f2 v fr d ∧
    (v.length ≤ maxC → (graphExpand edges maxD maxC f1 v fr d).length ≤ maxC) :=
  ⟨graphExpand_stable edges maxD maxC f1 f2 d v fr h1 h2,
   fun hv => graphExpand_length edges maxD maxC f1 v fr d hv⟩

/-- Witness for claim C9 on a two-node cyclic graph: fuel 3 and fuel 40 agree
and the result respects the cap. -/
theorem graph_expansion_terminates_witness :
    graphExpand [(1, 2), (2, 1)] 3 10 3 [1] [1] 0 =
      graphExpand [(1, 2), (2, 1)] 3 10 40 [1] [1] 0 ∧
    (graphExpand [(1, 2), (2, 1)] 3 10 3 [1] [1] 0).length ≤ 10 := by
  have h := graph_expansion_terminates [(1, 2), (2, 1)] 3 10 3 40 0 [1] [1]
    (by decide) (by decide)
  exact ⟨h.1, h.2 (by decide)⟩

end Tayste
